import Mathlib

/-!
Shallow embedding of the Antigravity process lifecycle controller
(process discovery, classification, termination, launch, exit waiting)
from the AntigravityManager repository, together with proofs of the
behavioural properties stated in its specification.

Strings from the source are modelled as `List Char` (the `.data` of a
Lean `String`), so that every operation is executable and decidable.
Subprocess dispatch outcomes (success / failure of an OS call) are
modelled as explicit `Except` parameters: the embedding of a function
that shells out takes the outcome of each shell-out as an argument and
computes the control flow the source performs on it.
-/

namespace AntigravityManager

/-- The record produced for each discovered OS process
(`interface ProcessInfo { pid; name; cmd }`). -/
structure ProcessInfo where
  pid : Int
  name : List Char
  cmd : List Char
deriving DecidableEq

/-- The platforms the source distinguishes via `process.platform`:
`'win32'`, `'darwin'`, and everything else (the POSIX/Linux branch). -/
inductive Platform where
  | win32
  | darwin
  | linux
deriving DecidableEq

/-- ASCII lowercase of one character (the effect of JS `toLowerCase`
on the ASCII strings the source compares). -/
def lowerChar (c : Char) : Char :=
  if 'A' ≤ c ∧ c ≤ 'Z' then Char.ofNat (c.toNat + 32) else c

/-- Lowercasing a whole string, character by character. -/
def lowerStr (s : List Char) : List Char :=
  s.map lowerChar

/-- JS `String.prototype.includes`: does `hay` contain `needle` as a
contiguous substring? -/
def containsSeq (hay needle : List Char) : Bool :=
  match hay with
  | [] => needle.isEmpty
  | _ :: t => needle.isPrefixOf hay || containsSeq t needle

/-- The whitespace characters relevant to JS `\s` / `trim()` on the
process-listing output handled here (lines are newline-split first). -/
def isWs (c : Char) : Bool :=
  c = ' ' || c = '\t' || c = '\r' || c = '\n'

/-- JS `String.prototype.trim`. -/
def trim (s : List Char) : List Char :=
  ((s.dropWhile isWs).reverse.dropWhile isWs).reverse

/-- Accumulator loop for `splitWs`: `cur` is the current field,
reversed. -/
def splitWsGo (cur : List Char) : List Char → List (List Char)
  | [] => if cur.isEmpty then [] else [cur.reverse]
  | c :: t =>
    if isWs c then
      if cur.isEmpty then splitWsGo [] t else cur.reverse :: splitWsGo [] t
    else splitWsGo (c :: cur) t

/-- Split on runs of whitespace (JS `split(/\s+/)` as applied in the
source, always to an already-trimmed string, where it yields exactly
the maximal whitespace-free fields in order; on the empty string JS
yields `[""]` where this yields `[]`, and both fail the subsequent
`parts.length < 2` guard identically). -/
def splitWs (s : List Char) : List (List Char) :=
  splitWsGo [] s

/-- Is `c` a decimal digit? -/
def isDigit (c : Char) : Bool :=
  '0' ≤ c ∧ c ≤ '9'

/-- Numeric value of a decimal digit string (most significant first). -/
def decValue (ds : List Char) : Nat :=
  ds.foldl (fun acc c => acc * 10 + (c.toNat - 48)) 0

/-- JS `parseInt(s)` restricted to the inputs reachable here
(whitespace-free tokens): optional sign, then leading decimal digits,
`NaN` (`none`) if no digit follows the optional sign. Trailing
non-digit characters are ignored, exactly as `parseInt` ignores them.
(The hexadecimal `0x` auto-detection of `parseInt` is irrelevant to
these proofs' statements but is modelled for fidelity.) -/
def jsParseInt (s : List Char) : Option Int :=
  let core : List Char → Option Nat := fun t =>
    match t with
    | '0' :: x :: rest =>
      if x = 'x' ∨ x = 'X' then
        let hexDigit : Char → Bool := fun c =>
          isDigit c || ('a' ≤ c ∧ c ≤ 'f') || ('A' ≤ c ∧ c ≤ 'F')
        let hs := rest.takeWhile hexDigit
        if hs.isEmpty then none
        else
          some (hs.foldl (fun acc c =>
            acc * 16 +
              (if isDigit c then c.toNat - 48
               else if 'a' ≤ c ∧ c ≤ 'f' then c.toNat - 87
               else c.toNat - 55)) 0)
      else
        let ds := t.takeWhile isDigit
        if ds.isEmpty then none else some (decValue ds)
    | _ =>
      let ds := t.takeWhile isDigit
      if ds.isEmpty then none else some (decValue ds)
  match s with
  | '-' :: t => (core t).map (fun n => -(n : Int))
  | '+' :: t => (core t).map (fun n => (n : Int))
  | t => (core t).map (fun n => (n : Int))

/-- Accumulator loop for `splitOnNl`. -/
def splitOnNlGo (cur : List Char) : List Char → List (List Char)
  | [] => [cur.reverse]
  | c :: t =>
    if c = '\n' then cur.reverse :: splitOnNlGo [] t
    else splitOnNlGo (c :: cur) t

/-- JS `split('\n')`. -/
def splitOnNl (s : List Char) : List (List Char) :=
  splitOnNlGo [] s

/-- Remove one trailing carriage return, if present. -/
def dropTrailingCR (l : List Char) : List Char :=
  match l.getLast? with
  | some '\r' => l.dropLast
  | _ => l

/-- JS `split(/\r?\n/)`: equivalently, split on `'\n'` and strip one
trailing `'\r'` from each piece. -/
def splitLines (s : List Char) : List (List Char) :=
  (splitOnNl s).map dropTrailingCR

/-- The target-application name the source hardcodes in its filters. -/
def agName : List Char := "antigravity".data

/-- One line of the POSIX branch of `getRunningAntigravityProcesses`
(source lines 79–98): trim, split on runs of whitespace, require at
least two fields, require the first field to parse as an integer pid,
rejoin the remaining fields with single spaces as the command line,
and keep the row only if that command line contains `"antigravity"`
case-insensitively. -/
def parsePosixLine (line : List Char) : Option ProcessInfo :=
  match splitWs (trim line) with
  | p0 :: p1 :: ps =>
    match jsParseInt p0 with
    | none => none
    | some pid =>
      let rest := List.intercalate [' '] (p1 :: ps)
      if containsSeq (lowerStr rest) agName then some ⟨pid, p1, rest⟩
      else none
  | _ => none

/-- The POSIX branch over the whole `ps -A -o pid,comm,args` output:
`output.split('\n')`, each line handled by `parsePosixLine`. -/
def parsePosixOutput (out : List Char) : List ProcessInfo :=
  (splitOnNl out).filterMap parsePosixLine

/-- The three-character field separator of the quoted CSV rows:
quote, comma, quote. -/
def sep : List Char := ['"', ',', '"']

/-- Split a character list at the first occurrence of `sep`, returning
the parts before and after it; `none` if the separator does not occur.
This is where the lazy group of the CSV row regex ends: the lazy
`(.*?)` takes the shortest prefix after which the literal separator
matches. -/
def splitFirstSep (l : List Char) : Option (List Char × List Char) :=
  match l with
  | [] => none
  | c :: t =>
    if sep.isPrefixOf (c :: t) then some ([], t.drop 2)
    else
      match splitFirstSep t with
      | some (a, b) => some (c :: a, b)
      | none => none

/-- No line-terminator characters (which JS `.` does not match). -/
def noBreak (l : List Char) : Bool :=
  l.all (fun c => c ≠ '\n' && c ≠ '\r')

/-- One data line of the Windows CSV branch (source lines 63–76): the
regex match `^"(\d+)","(.*?)","(.*?)"$`. The leading `\d+` is the
maximal digit run (it must be followed by the literal `","`); the two
lazy groups decompose the remainder at the first `","` separator, with
the final field running to the closing quote at the end of the line;
`.` matches no line terminator. `cmd` falls back to the name when the
`CommandLine` field is empty (`cmd: cmdLine || name`). -/
def parseWinLine (line : List Char) : Option ProcessInfo :=
  match line with
  | '"' :: r =>
    let ds := r.takeWhile isDigit
    if ds.isEmpty then none
    else
      match r.dropWhile isDigit with
      | '"' :: ',' :: '"' :: s =>
        match s.getLast? with
        | some '"' =>
          if noBreak s then
            match splitFirstSep s.dropLast with
            | some (a, b) =>
              match jsParseInt ds with
              | some pid => some ⟨pid, a, if b.isEmpty then a else b⟩
              | none => none
            | none => none
          else none
        | _ => none
      | _ => none
  | _ => none

/-- The Windows CSV branch over the whole PowerShell output (source
lines 60–76): `output.trim().split(/\r?\n/)`, the header line skipped,
every later line handled by `parseWinLine` (an empty line is skipped,
and `parseWinLine [] = none` makes that a special case of the match
failing). -/
def parseWinOutput (out : List Char) : List ProcessInfo :=
  ((splitLines (trim out)).drop 1).filterMap parseWinLine

/-- Platform dispatch of the raw-output parsing stage of
`getRunningAntigravityProcesses` (source lines 59–99). -/
def parseOutput (platform : Platform) (out : List Char) : List ProcessInfo :=
  match platform with
  | .win32 => parseWinOutput out
  | _ => parsePosixOutput out

/-- The final filter of `getRunningAntigravityProcesses` (source lines
102–142): exclude the caller's own pid, exclude any record whose
lowercased command line contains `"antigravity manager"`, then confirm
the record per platform (executable-name match on Windows, bundle-path
match on macOS, loose substring match on Linux). -/
def classify (l : List ProcessInfo) (currentPid : Int) (platform : Platform) :
    List ProcessInfo :=
  l.filter fun p =>
    if p.pid = currentPid then false
    else
      let cmdLower := lowerStr p.cmd
      if containsSeq cmdLower ("antigravity manager".data) then false
      else
        match platform with
        | .win32 =>
          containsSeq p.cmd ("Antigravity.exe".data) ||
            (containsSeq cmdLower agName &&
              !containsSeq cmdLower ("manager".data))
        | .darwin =>
          containsSeq p.cmd ("Antigravity.app".data) ||
            (containsSeq p.cmd ("Antigravity".data) &&
              !containsSeq cmdLower ("manager".data))
        | .linux =>
          containsSeq p.cmd ("Antigravity".data) ||
            containsSeq cmdLower agName

/-- The two Windows process-enumeration queries, in the order the
source tries them. -/
inductive QueryCmd where
  | getCimInstance
  | getWmiObject
deriving DecidableEq

/-- The Windows branch of `getRawOutput` (source lines 24–45): try
`Get-CimInstance`; on failure try `Get-WmiObject`; if that fails too,
re-throw the *first* error. The value also records which queries were
attempted, in order. `cimR` and `wmiR` are the outcomes the two
`execSync` calls would produce. -/
def getRawOutput {E : Type} (cimR wmiR : Except E (List Char)) :
    Except E (List Char) × List QueryCmd :=
  match cimR with
  | .ok o => (.ok o, [.getCimInstance])
  | .error e =>
    match wmiR with
    | .ok o => (.ok o, [.getCimInstance, .getWmiObject])
    | .error _ => (.error e, [.getCimInstance, .getWmiObject])

/-- `getRunningAntigravityProcesses` (source lines 17–148) as a
function of the outcome of the raw process-listing query: on query
failure the surrounding `catch` logs and returns `[]`; on success the
output is parsed for the platform and filtered by `classify`. -/
def getRunningAntigravityProcesses (platform : Platform) (currentPid : Int)
    (raw : Except Unit (List Char)) : List ProcessInfo :=
  match raw with
  | .error _ => []
  | .ok out => classify (parseOutput platform out) currentPid platform

/-- `isProcessRunning` (source lines 154–170): true iff the discovered
and classified list is non-empty (`runningProcesses.length > 0`). -/
def isProcessRunning (platform : Platform) (currentPid : Int)
    (raw : Except Unit (List Char)) : Bool :=
  decide (0 < (getRunningAntigravityProcesses platform currentPid raw).length)

/-- The platform-specific cooperative-quit command `closeAntigravity`
issues in its graceful stage. -/
inductive GracefulCmd where
  | osascriptQuit
  | taskkillImageName
deriving DecidableEq

/-- Observable effects of one `closeAntigravity` run. -/
structure CloseResult where
  graceful : Option GracefulCmd
  kills : List Int
deriving DecidableEq

/-- `closeAntigravity` (source lines 176–240) as a function of the
discovery outcome observed at its verification stage: the graceful
stage issues the platform quit command (failures there are swallowed),
then discovery+classification runs, and every remaining record gets an
individual `SIGKILL` addressed by pid (an empty list short-circuits
with zero kills). -/
def closeAntigravity (platform : Platform) (currentPid : Int)
    (raw : Except Unit (List Char)) : CloseResult :=
  let graceful : Option GracefulCmd :=
    match platform with
    | .darwin => some .osascriptQuit
    | .win32 => some .taskkillImageName
    | .linux => none
  let remaining := getRunningAntigravityProcesses platform currentPid raw
  ⟨graceful, remaining.map (·.pid)⟩

/-- Uppercase an ASCII lowercase letter. -/
def upperChar (c : Char) : Char :=
  if 'a' ≤ c ∧ c ≤ 'z' then Char.ofNat (c.toNat - 32) else c

/-- JS `replace(/\//g, '\\')`. -/
def replaceSlashes (p : List Char) : List Char :=
  p.map fun c => if c = '/' then '\\' else c

/-- JS `replace(/^\/mnt\/([a-z])\//, (_, d) => d.toUpperCase() + ':\\')`:
rewrite a leading `/mnt/<single lowercase letter>/` to `<D>:\`;
any other shape is left unchanged. -/
def driveReplace (p : List Char) : List Char :=
  match p with
  | '/' :: 'm' :: 'n' :: 't' :: '/' :: d :: '/' :: rest =>
    if 'a' ≤ d ∧ d ≤ 'z' then upperChar d :: ':' :: '\\' :: rest else p
  | _ => p

/-- The WSL path translation in `startAntigravity` (source lines
325–327): the drive-prefix rewrite followed by the global `/` → `\`
replacement. -/
def toWindowsPath (p : List Char) : List Char :=
  replaceSlashes (driveReplace p)

/-- The launch invocations `startAntigravity` can dispatch. -/
inductive LaunchCmd where
  | uriOpen
  | openDarwinApp
  | startWindows (path : List Char)
  | cmdExeWsl (winPath : List Char)
  | execLinuxDetached (path : List Char)
deriving DecidableEq

/-- `startAntigravity` (source lines 293–340) as a function of: the
`isProcessRunning()` result at entry, the `useUri` flag, the outcome
of the `openUri` dispatch (`openUri` returns `false` on failure, its
own error swallowed), the platform, the `isWsl()` flag, the resolved
executable path, and the outcome `execDispatch` of awaiting the final
executable invocation. The value is `.error` exactly when the source
re-throws, and on success carries the invocations dispatched in order.
On native Linux the final launch is `exec(...)` with `child.unref()`
and no `await`: a dispatch failure there is delivered asynchronously,
is never awaited, and so cannot reach the surrounding `try`/`catch` —
that branch therefore succeeds irrespective of `execDispatch`. -/
def startAntigravity (running useUri uriDispatchOk : Bool)
    (platform : Platform) (wsl : Bool) (execPath : List Char)
    (execDispatch : Except Unit Unit) : Except Unit (List LaunchCmd) :=
  if running then .ok []
  else
    let uriAttempt : List LaunchCmd := if useUri then [.uriOpen] else []
    if useUri && uriDispatchOk then .ok uriAttempt
    else
      match platform with
      | .darwin =>
        match execDispatch with
        | .ok _ => .ok (uriAttempt ++ [.openDarwinApp])
        | .error e => .error e
      | .win32 =>
        match execDispatch with
        | .ok _ => .ok (uriAttempt ++ [.startWindows execPath])
        | .error e => .error e
      | .linux =>
        if wsl then
          match execDispatch with
          | .ok _ => .ok (uriAttempt ++ [.cmdExeWsl (toWindowsPath execPath)])
          | .error e => .error e
        else .ok (uriAttempt ++ [.execLinuxDetached execPath])

/-- The poll loop of `_waitForProcessExit` (source lines 247–256),
idealised so that the k-th `isProcessRunning()` poll happens at
elapsed time `500·k` ms (the loop sleeps 500 ms between polls).
`running k` is the result of the k-th poll. The `fuel` argument only
bounds the recursion; `_waitForProcessExit` supplies enough of it that
the loop always reaches its own exit condition first. Returns the
loop outcome (`.error` models the thrown timeout) and the number of
polls performed. -/
def waitGo (running : Nat → Bool) (timeoutMs : Int) :
    Nat → Nat → Except Unit Unit × Nat
  | k, 0 => (.error (), k)
  | k, fuel + 1 =>
    if 500 * (k : Int) < timeoutMs then
      if running k then waitGo running timeoutMs (k + 1) fuel
      else (.ok (), k + 1)
    else (.error (), k)

/-- `_waitForProcessExit(timeoutMs)`: the poll loop started at elapsed
time zero. -/
def _waitForProcessExit (running : Nat → Bool) (timeoutMs : Int) :
    Except Unit Unit × Nat :=
  waitGo running timeoutMs 0 (timeoutMs.toNat / 500 + 2)

/-! ## Helper lemmas -/

theorem charLe_toNat {a b : Char} (h : a ≤ b) : a.toNat ≤ b.toNat := by
  simpa [Char.le_def, UInt32.le_def, BitVec.le_def, Char.toNat,
    UInt32.toNat] using h

theorem upperChar_toNat {d : Char} (h1 : 'a' ≤ d) (h2 : d ≤ 'z') :
    (upperChar d).toNat = d.toNat - 32 := by
  have hb1 : 97 ≤ d.toNat := charLe_toNat h1
  have hb2 : d.toNat ≤ 122 := charLe_toNat h2
  have hv : (d.toNat - 32).isValidChar := by left; omega
  unfold upperChar
  rw [if_pos ⟨h1, h2⟩]
  unfold Char.ofNat
  rw [dif_pos hv]
  simp [Char.ofNatAux, Char.toNat, UInt32.toNat, BitVec.toNat_ofNat]

theorem upperChar_ne_slash {d : Char} (h1 : 'a' ≤ d) (h2 : d ≤ 'z') :
    upperChar d ≠ '/' := by
  intro h
  have ht := upperChar_toNat h1 h2
  have hb1 : 97 ≤ d.toNat := charLe_toNat h1
  rw [h] at ht
  have h47 : ('/' : Char).toNat = 47 := rfl
  omega

theorem takeWhile_all_append (p : Char → Bool) (l r : List Char) (c : Char)
    (hl : l.all p = true) (hc : p c = false) :
    (l ++ c :: r).takeWhile p = l := by
  induction l with
  | nil => simp [List.takeWhile, hc]
  | cons a t ih =>
    simp only [List.all_cons, Bool.and_eq_true] at hl
    simp [List.takeWhile, hl.1, ih hl.2]

theorem dropWhile_all_append (p : Char → Bool) (l r : List Char) (c : Char)
    (hl : l.all p = true) (hc : p c = false) :
    (l ++ c :: r).dropWhile p = c :: r := by
  induction l with
  | nil => simp [List.dropWhile, hc]
  | cons a t ih =>
    simp only [List.all_cons, Bool.and_eq_true] at hl
    simp [List.dropWhile, hl.1, ih hl.2]

theorem splitFirstSep_append (name cmd : List Char)
    (hq : name.all (fun c => c ≠ '"') = true) :
    splitFirstSep (name ++ '"' :: ',' :: '"' :: cmd) = some (name, cmd) := by
  induction name with
  | nil => simp [splitFirstSep, sep, List.isPrefixOf]
  | cons a t ih =>
    simp only [List.all_cons, Bool.and_eq_true, decide_eq_true_eq] at hq
    have hne : ('"' == a) = false := by
      simp only [beq_eq_false_iff_ne]
      exact fun h => hq.1 h.symm
    simp [splitFirstSep, sep, List.isPrefixOf, hne, ih hq.2]

theorem waitGo_stop (running : Nat → Bool) (t : Int) (k fuel : Nat)
    (h : ¬ 500 * (k : Int) < t) : waitGo running t k fuel = (.error (), k) := by
  cases fuel with
  | zero => rfl
  | succ n => simp [waitGo, h]

theorem waitGo_ok (running : Nat → Bool) (t : Int) (k : Nat)
    (hk : 500 * (k : Int) < t) (hstop : running k = false) :
    ∀ fuel k0, k0 ≤ k → (∀ j, k0 ≤ j → j < k → running j = true) →
      k + 1 ≤ k0 + fuel → waitGo running t k0 fuel = (.ok (), k + 1) := by
  intro fuel
  induction fuel with
  | zero => intro k0 hle _ hfuel; omega
  | succ n ih =>
    intro k0 hle hall hfuel
    have hcond : 500 * (k0 : Int) < t := by
      have : (k0 : Int) ≤ (k : Int) := by exact_mod_cast hle
      omega
    rcases Nat.eq_or_lt_of_le hle with heq | hlt
    · subst heq
      simp [waitGo, hcond, hstop]
    · have hrun : running k0 = true := hall k0 le_rfl hlt
      simp only [waitGo, hcond, if_pos, hrun, if_true]
      exact ih (k0 + 1) hlt (fun j hj1 hj2 => hall j (by omega) hj2) (by omega)

theorem waitGo_timeout (running : Nat → Bool) (t : Int)
    (hall : ∀ j : Nat, 500 * (j : Int) < t → running j = true) :
    ∀ fuel k0, (waitGo running t k0 fuel).1 = .error () := by
  intro fuel
  induction fuel with
  | zero => intro k0; rfl
  | succ n ih =>
    intro k0
    by_cases hc : 500 * (k0 : Int) < t
    · simp only [waitGo, if_pos hc, hall k0 hc, if_true]
      exact ih (k0 + 1)
    · simp [waitGo, hc]

/-! ## Claims -/

/-- C1: `queryRunning()` (`isProcessRunning`) returns true iff
classifying the freshly discovered process list against the caller's
pid yields a non-empty sequence, and it never raises: when the OS
process-enumeration query fails, discovery returns an empty sequence
and `isProcessRunning` returns false. -/
theorem claim1_queryRunning_iff_nonempty (platform : Platform)
    (currentPid : Int) (raw : Except Unit (List Char)) :
    (isProcessRunning platform currentPid raw = true ↔
      getRunningAntigravityProcesses platform currentPid raw ≠ []) ∧
    (raw = .error () →
      getRunningAntigravityProcesses platform currentPid raw = [] ∧
      isProcessRunning platform currentPid raw = false) := by
  constructor
  · simp [isProcessRunning, List.length_pos]
  · rintro rfl
    exact ⟨rfl, rfl⟩

/-- C1 witness: on a failed OS query, discovery yields `[]` and
`isProcessRunning` is false. -/
theorem claim1_queryRunning_iff_nonempty_witness :
    getRunningAntigravityProcesses .linux 1 (.error ()) = [] ∧
    isProcessRunning .linux 1 (.error ()) = false :=
  (claim1_queryRunning_iff_nonempty .linux 1 (.error ())).2 rfl

/-- C3: when discovery plus classification yields an empty sequence,
`closeAntigravity` performs zero per-pid kill calls and returns
normally, and `isProcessRunning` reports false for the same discovery
result. -/
theorem claim3_close_empty_no_kills (platform : Platform) (currentPid : Int)
    (raw : Except Unit (List Char))
    (h : getRunningAntigravityProcesses platform currentPid raw = []) :
    (closeAntigravity platform currentPid raw).kills = [] ∧
    isProcessRunning platform currentPid raw = false := by
  constructor
  · simp [closeAntigravity, h]
  · simp [isProcessRunning, h]

/-- C3 witness: an empty `ps` snapshot gives zero kills and a false
running report. -/
theorem claim3_close_empty_no_kills_witness :
    (closeAntigravity .linux 1 (.ok "".data)).kills = [] ∧
    isProcessRunning .linux 1 (.ok "".data) = false :=
  claim3_close_empty_no_kills .linux 1 (.ok "".data) rfl

/-- C6: on the structured-query platform, discovery attempts the
modern query first, attempts the legacy one only when the modern one
fails, and when both fail the error propagated out of `getRawOutput`
is the first (modern) query's error. -/
theorem claim6_getRawOutput_order {E : Type}
    (cimR wmiR : Except E (List Char)) :
    (∀ o, cimR = .ok o →
      getRawOutput cimR wmiR = (.ok o, [.getCimInstance])) ∧
    (∀ e o, cimR = .error e → wmiR = .ok o →
      getRawOutput cimR wmiR = (.ok o, [.getCimInstance, .getWmiObject])) ∧
    (∀ e1 e2, cimR = .error e1 → wmiR = .error e2 →
      getRawOutput cimR wmiR = (.error e1, [.getCimInstance, .getWmiObject])) := by
  refine ⟨?_, ?_, ?_⟩
  · rintro o rfl; rfl
  · rintro e o rfl rfl; rfl
  · rintro e1 e2 rfl rfl; rfl

/-- C6 witness: with distinguishable errors, the propagated error is
the first query's. -/
theorem claim6_getRawOutput_order_witness :
    getRawOutput (E := Nat) (.error 1) (.error 2) =
      (.error 1, [.getCimInstance, .getWmiObject]) :=
  (claim6_getRawOutput_order (E := Nat) (.error 1) (.error 2)).2.2 1 2 rfl rfl

/-- C10: for every `timeoutMs ≤ 0`, `_waitForProcessExit` throws its
timeout error having performed zero polls, whatever the poll source
would have reported. -/
theorem claim10_nonpositive_timeout_immediate (running : Nat → Bool)
    (timeoutMs : Int) (h : timeoutMs ≤ 0) :
    _waitForProcessExit running timeoutMs = (.error (), 0) := by
  unfold _waitForProcessExit
  apply waitGo_stop
  simp only [Nat.cast_zero, mul_zero]
  omega

/-- C10 witness: a zero timeout fails immediately with zero polls even
though the process is not running. -/
theorem claim10_nonpositive_timeout_immediate_witness :
    _waitForProcessExit (fun _ => false) 0 = (.error (), 0) :=
  claim10_nonpositive_timeout_immediate (fun _ => false) 0 le_rfl

/-- C4: `_waitForProcessExit` polls at a fixed 500 ms interval,
returns normally on the first poll reporting not-running before the
deadline (performing exactly that many polls), and throws its timeout
error if every poll before the deadline still reports running. -/
theorem claim4_waitForExit_spec (running : Nat → Bool) (timeoutMs : Int) :
    (∀ k : Nat, 500 * (k : Int) < timeoutMs → running k = false →
      (∀ j : Nat, j < k → running j = true) →
      _waitForProcessExit running timeoutMs = (.ok (), k + 1)) ∧
    ((∀ k : Nat, 500 * (k : Int) < timeoutMs → running k = true) →
      (_waitForProcessExit running timeoutMs).1 = .error ()) := by
  constructor
  · intro k hk hstop hall
    unfold _waitForProcessExit
    exact waitGo_ok running timeoutMs k hk hstop _ 0 (Nat.zero_le k)
      (fun j _ hj2 => hall j hj2) (by omega)
  · intro hall
    exact waitGo_timeout running timeoutMs hall _ 0

/-- C4 witness: a source that stops running at the second poll makes
the wait return after two polls; an always-running source makes an
800 ms wait throw. -/
theorem claim4_waitForExit_spec_witness :
    _waitForProcessExit (fun j => decide (j = 0)) 2000 = (.ok (), 2) ∧
    (_waitForProcessExit (fun _ => true) 800).1 = .error () :=
  ⟨(claim4_waitForExit_spec (fun j => decide (j = 0)) 2000).1 1 (by decide)
      (by decide)
      (fun j hj => by
        have hj0 : j = 0 := by omega
        subst hj0; rfl),
   (claim4_waitForExit_spec (fun _ => true) 800).2 (fun k _ => rfl)⟩

/-- C2 counterexample: on native Linux (not WSL), with the process not
running, protocol launch preferred but its dispatch failing, and the
final executable invocation's dispatch failing as well, `startAntigravity`
returns normally (the detached `exec` never surfaces its error),
contradicting the claim that a dispatch failure of the final
executable invocation is surfaced on every platform. -/
theorem claim2_counterexample :
    startAntigravity false true false .linux false "/opt/antigravity".data
        (.error ()) =
      .ok [.uriOpen, .execLinuxDetached "/opt/antigravity".data] ∧
    startAntigravity false true false .linux false "/opt/antigravity".data
        (.error ()) ≠ .error () :=
  ⟨rfl, fun h => nomatch h⟩

/-- C2 (amended): `startAntigravity` issues zero launch invocations
when already running; a failed URI dispatch is swallowed and falls
through to the executable launch; the only error it surfaces is a
dispatch failure of the final executable invocation, and only on
macOS, Windows, or WSL — on native Linux the final launch is detached
and `startAntigravity` returns normally regardless of its dispatch
outcome. -/
theorem claim2_start_error_policy (running useUri uriOk : Bool)
    (platform : Platform) (wsl : Bool) (path : List Char)
    (execDispatch : Except Unit Unit) :
    (running = true →
      startAntigravity running useUri uriOk platform wsl path execDispatch =
        .ok []) ∧
    (running = false → useUri = true → uriOk = false → execDispatch = .ok () →
      ∃ c, startAntigravity running useUri uriOk platform wsl path execDispatch =
        .ok [.uriOpen, c] ∧ c ≠ .uriOpen) ∧
    (∀ e, startAntigravity running useUri uriOk platform wsl path execDispatch =
        .error e →
      execDispatch = .error e ∧ running = false ∧
      (useUri = true → uriOk = false) ∧ ¬(platform = .linux ∧ wsl = false)) ∧
    (running = false → platform = .linux → wsl = false →
      ∃ l, startAntigravity running useUri uriOk platform wsl path execDispatch =
        .ok l) := by
  refine ⟨?_, ?_, ?_, ?_⟩
  · rintro rfl; rfl
  · rintro rfl rfl rfl rfl
    cases platform with
    | darwin => exact ⟨.openDarwinApp, rfl, fun h => nomatch h⟩
    | win32 => exact ⟨.startWindows path, rfl, fun h => nomatch h⟩
    | linux =>
      cases wsl with
      | true => exact ⟨.cmdExeWsl (toWindowsPath path), rfl, fun h => nomatch h⟩
      | false => exact ⟨.execLinuxDetached path, rfl, fun h => nomatch h⟩
  · intro e h
    cases e
    cases running <;> cases useUri <;> cases uriOk <;> cases platform <;>
      cases wsl <;> cases execDispatch <;> simp_all [startAntigravity]
  · rintro rfl rfl rfl
    cases useUri <;> cases uriOk <;> exact ⟨_, rfl⟩

/-- C2 witness: already-running start is a no-op; on native Linux a
start with failing dispatches still returns normally. -/
theorem claim2_start_error_policy_witness :
    startAntigravity true true true .darwin false ['p'] (.ok ()) = .ok [] ∧
    (∃ l, startAntigravity false true false .linux false ['p'] (.error ()) =
      .ok l) :=
  ⟨(claim2_start_error_policy true true true .darwin false ['p'] (.ok ())).1 rfl,
   (claim2_start_error_policy false true false .linux false ['p']
      (.error ())).2.2.2 rfl rfl rfl⟩

/-- C9: the WSL path translator maps `/mnt/<lowercase letter>/rest` to
the uppercased drive prefix `<D>:\` followed by `rest` with every `/`
replaced by `\`; in particular `/mnt/c/Program Files/App/App.exe`
maps to `C:\Program Files\App\App.exe`. -/
theorem claim9_wsl_path_translation (d : Char) (rest : List Char)
    (h1 : 'a' ≤ d) (h2 : d ≤ 'z') :
    toWindowsPath ('/' :: 'm' :: 'n' :: 't' :: '/' :: d :: '/' :: rest) =
      upperChar d :: ':' :: '\\' :: replaceSlashes rest ∧
    toWindowsPath "/mnt/c/Program Files/App/App.exe".data =
      "C:\\Program Files\\App\\App.exe".data := by
  constructor
  · have hu := upperChar_ne_slash h1 h2
    show replaceSlashes
        (if 'a' ≤ d ∧ d ≤ 'z' then upperChar d :: ':' :: '\\' :: rest
         else '/' :: 'm' :: 'n' :: 't' :: '/' :: d :: '/' :: rest) =
      upperChar d :: ':' :: '\\' :: replaceSlashes rest
    rw [if_pos ⟨h1, h2⟩]
    show (if upperChar d = '/' then '\\' else upperChar d) :: ':' :: '\\' ::
        replaceSlashes rest =
      upperChar d :: ':' :: '\\' :: replaceSlashes rest
    rw [if_neg hu]
  · decide

/-- C9 witness: the concrete translation, obtained from the general
statement at drive letter `c`. -/
theorem claim9_wsl_path_translation_witness :
    toWindowsPath "/mnt/c/Program Files/App/App.exe".data =
      "C:\\Program Files\\App\\App.exe".data :=
  (claim9_wsl_path_translation 'c' "Program Files/App/App.exe".data
    (by decide) (by decide)).2

/-- C8: `classify` never returns a record whose pid equals the
caller's pid, and never returns a record whose lowercased command line
contains the phrase "antigravity manager"; in particular the record
with command line
`/Applications/Antigravity Manager.app/Contents/MacOS/Antigravity Manager`
(the spec writes the target-application placeholder "App" for
"Antigravity") is excluded. -/
theorem claim8_classify_exclusions (l : List ProcessInfo) (currentPid : Int)
    (platform : Platform) :
    (∀ r, r ∈ classify l currentPid platform →
      r.pid ≠ currentPid ∧
      containsSeq (lowerStr r.cmd) ("antigravity manager".data) = false) ∧
    classify [⟨9, "Antigravity Manager".data,
        "/Applications/Antigravity Manager.app/Contents/MacOS/Antigravity Manager".data⟩]
      1 .darwin = [] := by
  constructor
  · intro r hr
    simp only [classify, List.mem_filter] at hr
    obtain ⟨-, hp⟩ := hr
    by_cases hpid : r.pid = currentPid
    · rw [if_pos hpid] at hp
      exact absurd hp (by simp)
    · rw [if_neg hpid] at hp
      by_cases hmgr : containsSeq (lowerStr r.cmd) ("antigravity manager".data) = true
      · rw [if_pos hmgr] at hp
        exact absurd hp (by simp)
      · exact ⟨hpid, by simpa using hmgr⟩
  · decide

/-- C8 witness: a genuine Antigravity record kept by `classify` has a
pid different from the caller's and no "antigravity manager" phrase in
its command line. -/
theorem claim8_classify_exclusions_witness :
    (⟨7, "Antigravity".data, "/usr/bin/Antigravity".data⟩ : ProcessInfo).pid ≠ 1 ∧
    containsSeq
      (lowerStr (⟨7, "Antigravity".data, "/usr/bin/Antigravity".data⟩ : ProcessInfo).cmd)
      ("antigravity manager".data) = false :=
  (claim8_classify_exclusions
      [⟨7, "Antigravity".data, "/usr/bin/Antigravity".data⟩] 1 .linux).1
    ⟨7, "Antigravity".data, "/usr/bin/Antigravity".data⟩ (by decide)

/-- C5: the CSV parser skips the header line, and a data row of the
exact quoted form with a numeric pid yields one record whose command
line falls back to the name field when the CommandLine field is empty;
the concrete header-plus-row input yields exactly one record
`{pid 1234, name "App.exe", cmd "C:\Program Files\App\App.exe --flag"}`. -/
theorem claim5_csv_row_shape (ds name cmd : List Char) (pid : Int)
    (h1 : ds ≠ []) (h2 : ds.all isDigit = true)
    (h3 : jsParseInt ds = some pid)
    (h4 : name.all (fun c => c ≠ '"') = true)
    (h5 : noBreak name = true) (h6 : noBreak cmd = true) :
    parseWinLine ('"' :: (ds ++ '"' :: ',' :: '"' ::
        (name ++ '"' :: ',' :: '"' :: (cmd ++ ['"'])))) =
      some ⟨pid, name, if cmd.isEmpty then name else cmd⟩ ∧
    parseWinOutput
        ("\"ProcessId\",\"Name\",\"CommandLine\"\n\"1234\",\"App.exe\",\"C:\\Program Files\\App\\App.exe --flag\"".data) =
      [⟨1234, "App.exe".data, "C:\\Program Files\\App\\App.exe --flag".data⟩] := by
  constructor
  · obtain ⟨a, t, rfl⟩ : ∃ a t, ds = a :: t := by
      cases ds with
      | nil => exact absurd rfl h1
      | cons a t => exact ⟨a, t, rfl⟩
    simp only [parseWinLine]
    rw [takeWhile_all_append isDigit (a :: t) _ '"' h2 rfl,
      dropWhile_all_append isDigit (a :: t) _ '"' h2 rfl]
    simp only [List.isEmpty_cons, Bool.false_eq_true, if_false]
    rw [show name ++ '"' :: ',' :: '"' :: (cmd ++ ['"']) =
      (name ++ '"' :: ',' :: '"' :: cmd) ++ ['"'] by simp]
    rw [List.getLast?_concat]
    have hnb : noBreak ((name ++ '"' :: ',' :: '"' :: cmd) ++ ['"']) = true := by
      simp only [noBreak, List.all_append, List.all_cons] at h5 h6 ⊢
      rw [h5, h6]
      decide
    rw [if_pos hnb]
    rw [List.dropLast_concat]
    rw [splitFirstSep_append name cmd h4]
    rw [h3]
    rfl
  · decide

/-- C5 witness: the concrete data row parses to the expected record,
obtained from the general row statement. -/
theorem claim5_csv_row_shape_witness :
    parseWinLine
        "\"1234\",\"App.exe\",\"C:\\Program Files\\App\\App.exe --flag\"".data =
      some ⟨1234, "App.exe".data,
        "C:\\Program Files\\App\\App.exe --flag".data⟩ :=
  (claim5_csv_row_shape "1234".data "App.exe".data
      "C:\\Program Files\\App\\App.exe --flag".data 1234 (by decide) (by decide)
      (by decide) (by decide) (by decide) (by decide)).1

/-- C7 counterexample: the claim's parenthetical "this pre-filter
holds on every platform" fails — the Windows CSV parsing stage retains
a row whose command line does not contain "antigravity" in any case
(on that platform the name-based narrowing lives in the WMI query
filter, not in the parser). -/
theorem claim7_counterexample :
    parseOutput .win32
        ("\"ProcessId\",\"Name\",\"CommandLine\"\n\"99\",\"Antigravity.exe\",\"C:\\other\\tool\"".data) =
      [⟨99, "Antigravity.exe".data, "C:\\other\\tool".data⟩] ∧
    containsSeq (lowerStr "C:\\other\\tool".data) agName = false := by
  decide

/-- C7 (amended): on POSIX-like platforms, `listCandidateProcesses`
retains only rows whose command line contains "antigravity" as a
case-insensitive substring (on the structured-query platform that
narrowing is delegated to the OS query, not the parser), skips any row
whose first whitespace-delimited token does not parse as an integer
pid, tolerates irregular run-length whitespace, and yields for each
retained row the record {pid = first token, name = second token, cmd =
remainder rejoined with single spaces}; the snapshot line
`5678 Antigravity /usr/local/bin/Antigravity --serve` (the spec's
"App" placeholder instantiated to the hardcoded target name) yields
`{pid 5678, name "Antigravity",
cmd "Antigravity /usr/local/bin/Antigravity --serve"}`. -/
theorem claim7_posix_rows (line : List Char) :
    (∀ r, parsePosixLine line = some r →
      containsSeq (lowerStr r.cmd) agName = true) ∧
    (∀ p0 p1 ps, splitWs (trim line) = p0 :: p1 :: ps →
      jsParseInt p0 = none → parsePosixLine line = none) ∧
    (∀ p0 p1 ps pid, splitWs (trim line) = p0 :: p1 :: ps →
      jsParseInt p0 = some pid →
      containsSeq (lowerStr (List.intercalate [' '] (p1 :: ps))) agName = true →
      parsePosixLine line =
        some ⟨pid, p1, List.intercalate [' '] (p1 :: ps)⟩) ∧
    parsePosixLine "5678 Antigravity /usr/local/bin/Antigravity --serve".data =
      some ⟨5678, "Antigravity".data,
        "Antigravity /usr/local/bin/Antigravity --serve".data⟩ ∧
    parsePosixLine
        "  5678   Antigravity   /usr/local/bin/Antigravity    --serve ".data =
      some ⟨5678, "Antigravity".data,
        "Antigravity /usr/local/bin/Antigravity --serve".data⟩ := by
  refine ⟨?_, ?_, ?_, by decide, by decide⟩
  · intro r h
    cases hsp : splitWs (trim line) with
    | nil => simp [parsePosixLine, hsp] at h
    | cons p0 rest0 =>
      cases rest0 with
      | nil => simp [parsePosixLine, hsp] at h
      | cons p1 ps =>
        cases hpid : jsParseInt p0 with
        | none => simp [parsePosixLine, hsp, hpid] at h
        | some pid =>
          by_cases hc : containsSeq
              (lowerStr (List.intercalate [' '] (p1 :: ps))) agName = true
          · simp only [parsePosixLine, hsp, hpid, hc, if_true] at h
            cases h
            exact hc
          · have hc' : containsSeq
                (lowerStr (List.intercalate [' '] (p1 :: ps))) agName = false := by
              simpa using hc
            simp [parsePosixLine, hsp, hpid, hc'] at h
  · intro p0 p1 ps hsp hpid
    simp [parsePosixLine, hsp, hpid]
  · intro p0 p1 ps pid hsp hpid hc
    simp [parsePosixLine, hsp, hpid, hc]

/-- C7 witness: the amended statement applied to the concrete snapshot
line. -/
theorem claim7_posix_rows_witness :
    parsePosixLine "5678 Antigravity /usr/local/bin/Antigravity --serve".data =
      some ⟨5678, "Antigravity".data,
        "Antigravity /usr/local/bin/Antigravity --serve".data⟩ :=
  (claim7_posix_rows
      "5678 Antigravity /usr/local/bin/Antigravity --serve".data).2.2.1
    "5678".data "Antigravity".data
    ["/usr/local/bin/Antigravity".data, "--serve".data] 5678
    (by decide) (by decide) (by decide)

end AntigravityManager
